import Mathlib

/-!
Verification of the BuscaBoleto remote document retrieval engine.

This development shallowly embeds the deterministic core of the repository:

* `ftp_client.py` — `conectar` / `desconectar` (session state machine),
  the filename matcher inside `_buscar_em_diretorio` / `buscar_boleto`,
  and `buscar_por_data` (date window filter plus descending sort);
* `interface.py` — `_agrupar_resultados` (document grouping and
  deduplication), `formatar_numero_boleto`, and the batch download and
  archive naming logic of `_baixar_multiplos`;
* `nfse_client.py` — `formatar_numero_nfse` / `construir_id_dps` and the
  decode pipeline `_decodificar_gzip_base64`.

Machine-level side effects (the network, the SFTP library, the local file
system) are represented by explicit inputs and outcome values; Python
strings are Lean `String`s, Python `datetime` values are explicit
year-collapsed day/time records ordered lexicographically, and byte
strings are lists of `Nat` below 256.
-/

open scoped List

/-- Digit projection of a string, the model of Python's
`re.sub(r'[^\d]', '', s)` and of `''.join(filter(str.isdigit, s))` as the
repository applies them to file names and document numbers (ASCII digits). -/
def limpar (s : String) : List Char :=
  s.data.filter Char.isDigit

/-- Substring containment on character lists: the model of Python's
`needle in hay` for strings. -/
def containsSub (hay needle : List Char) : Bool :=
  needle.isPrefixOf hay ||
    match hay with
    | [] => false
    | _ :: t => containsSub t needle

/-- The filename/number matcher of `_buscar_em_diretorio`
(`ftp_client.py` lines 477-488, identical to `buscar_boleto` lines
333-349): in literal mode a file whose digit projection has at least 15
digits matches exactly when digits 6..14 equal the requested digits, a
shorter file name falls back to substring containment; non-literal mode is
always substring containment. -/
def matchesFile (buscaLiteral : Bool) (numeroLimpo : List Char) (nome : String) : Bool :=
  let nomeLimpo := limpar nome
  if buscaLiteral then
    if 15 ≤ nomeLimpo.length then
      decide ((nomeLimpo.drop 6).take 9 = numeroLimpo)
    else
      containsSub nomeLimpo numeroLimpo
  else
    containsSub nomeLimpo numeroLimpo

/-- The number mask of `interface.py`'s `formatar_numero_boleto`: digits
of the typed number, left padded with zeros to 9 characters (empty input
stays empty). -/
def formatarNumeroBoleto (numero : String) : List Char :=
  let numeroLimpo := limpar numero
  if numeroLimpo = [] then []
  else List.replicate (9 - numeroLimpo.length) '0' ++ numeroLimpo

theorem containsSub_of_isPrefixOf (hay needle : List Char) (h : needle.isPrefixOf hay) :
    containsSub hay needle = true := by
  unfold containsSub
  simp [h]

theorem containsSub_of_infix (hay needle : List Char) (h : needle <:+: hay) :
    containsSub hay needle = true := by
  induction hay with
  | nil =>
    rcases h with ⟨s, t, hst⟩
    have hs : s = [] := by
      cases s with
      | nil => rfl
      | cons a s' => simp at hst
    have ht : needle = [] := by
      cases needle with
      | nil => rfl
      | cons a n' => subst hs; simp at hst
    subst ht
    simp [containsSub, List.isPrefixOf]
  | cons a hay' ih =>
    rcases h with ⟨s, t, hst⟩
    cases s with
    | nil =>
      have hpre : needle.isPrefixOf (a :: hay') = true := by
        rw [List.isPrefixOf_iff_prefix]
        exact ⟨t, by simpa using hst⟩
      exact containsSub_of_isPrefixOf _ _ hpre
    | cons b s' =>
      have hb : b = a ∧ s' ++ needle ++ t = hay' := by
        constructor
        · have := congrArg (fun l => List.head? l) hst
          simp at this
          exact this
        · have := congrArg List.tail hst
          simpa using this
      have : containsSub hay' needle = true := ih ⟨s', t, hb.2⟩
      unfold containsSub
      simp [this]

theorem slice_infix (l : List Char) (m k : Nat) : (l.drop m).take k <:+: l := by
  have h1 : (l.drop m).take k <+: l.drop m := List.take_prefix _ _
  have h2 : l.drop m <:+ l := List.drop_suffix _ _
  exact h1.isInfix.trans h2.isInfix

/-- C3 — Literal matching is a strict subset of non-literal matching: a
filename/number pair matched in literal mode is also matched by substring
containment, while the pair (`"010001000005909.pdf"`, `"010001"`) is
matched by containment but not literally. -/
theorem literal_subset_naoLiteral :
    (∀ (nome numero : String),
        matchesFile true (limpar numero) nome = true →
        matchesFile false (limpar numero) nome = true) ∧
    (matchesFile false (limpar "010001") "010001000005909.pdf" = true ∧
     matchesFile true (limpar "010001") "010001000005909.pdf" = false) := by
  constructor
  · intro nome numero h
    unfold matchesFile at h ⊢
    by_cases h15 : 15 ≤ (limpar nome).length
    · rw [if_pos rfl, if_pos h15] at h
      have heq : ((limpar nome).drop 6).take 9 = limpar numero := of_decide_eq_true h
      exact containsSub_of_infix _ _ (heq ▸ slice_infix (limpar nome) 6 9)
    · rw [if_pos rfl, if_neg h15] at h
      exact h
  · exact ⟨by decide, by decide⟩

/-- Witness for C3 at a concrete pair: padded number `"000005909"` against
`"010001000005909.pdf"` matches literally, hence also by containment. -/
theorem literal_subset_naoLiteral_witness :
    matchesFile false (limpar "000005909") "010001000005909.pdf" = true :=
  literal_subset_naoLiteral.1 "010001000005909.pdf" "000005909" (by decide)

/-- C9 — In literal mode, a filename whose digit projection has at least
15 digits is matched exactly when the sanitized requested number has
exactly 9 digits and coincides with digit positions 6 through 14 of the
filename; any other length never matches, because the substring fallback
is reserved for filenames with fewer than 15 digits. -/
theorem literal_longo_match_iff (nome : String) (numeroLimpo : List Char)
    (h15 : 15 ≤ (limpar nome).length) :
    (matchesFile true numeroLimpo nome = true ↔
      numeroLimpo.length = 9 ∧ numeroLimpo = ((limpar nome).drop 6).take 9) ∧
    (numeroLimpo.length ≠ 9 → matchesFile true numeroLimpo nome = false) := by
  have hlen : (((limpar nome).drop 6).take 9).length = 9 := by
    simp [List.length_take, List.length_drop]
    omega
  have hmain : matchesFile true numeroLimpo nome = true ↔
      numeroLimpo.length = 9 ∧ numeroLimpo = ((limpar nome).drop 6).take 9 := by
    unfold matchesFile
    rw [if_pos rfl, if_pos h15]
    constructor
    · intro h
      have heq : ((limpar nome).drop 6).take 9 = numeroLimpo := of_decide_eq_true h
      refine ⟨?_, heq.symm⟩
      rw [← heq, hlen]
    · intro ⟨_, heq⟩
      exact decide_eq_true heq.symm
  refine ⟨hmain, ?_⟩
  intro hne
  cases hmf : matchesFile true numeroLimpo nome with
  | false => rfl
  | true => exact absurd (hmain.mp hmf).1 hne

/-- Witness for C9: the spec's worked example, filename
`010001000005909.PDF` with requested digits `000005909`, matches. -/
theorem literal_longo_match_iff_witness :
    matchesFile true ("000005909".data) "010001000005909.PDF" = true :=
  ((literal_longo_match_iff "010001000005909.PDF" ("000005909".data)
      (by decide)).1).mpr (by decide)

/-- DocumentKey computation embedded in `_agrupar_resultados`
(`interface.py` lines 904-908): all digits of the file name in order; the
first 15 of them when there are at least 15, otherwise all of them. -/
def chaveDoc (nome : String) : List Char :=
  let numeros := limpar nome
  if 15 ≤ numeros.length then numeros.take 15 else numeros

/-- C5 — For every filename, the DocumentKey equals the first 15
characters of the filename's digit projection when that projection has at
least 15 digits, and the whole digit projection otherwise. -/
theorem chaveDoc_spec (nome : String) :
    (15 ≤ (limpar nome).length → chaveDoc nome = (limpar nome).take 15) ∧
    ((limpar nome).length < 15 → chaveDoc nome = limpar nome) := by
  constructor
  · intro h
    unfold chaveDoc
    rw [if_pos h]
  · intro h
    unfold chaveDoc
    rw [if_neg (by omega)]

/-- Witness for C5 at the spec's example filename, whose projection has
exactly 15 digits. -/
theorem chaveDoc_spec_witness :
    chaveDoc "010001000005909.PDF" = (limpar "010001000005909.PDF").take 15 :=
  (chaveDoc_spec "010001000005909.PDF").1 (by decide)

/-- Zero padding of a digit string, the model of Python's `str.zfill`
restricted to the sign-free strings the client feeds it: pad on the left
with `'0'` up to the width, longer strings unchanged. -/
def zfill (largura : Nat) (s : List Char) : List Char :=
  List.replicate (largura - s.length) '0' ++ s

/-- The number formatter of `nfse_client.py`'s `formatar_numero_nfse`:
digit projection of the number, empty if no digits remain, else
`zfill`ed to 17 characters. -/
def formatarNumeroNfse (numero : String) : List Char :=
  let numeroLimpo := limpar numero
  if numeroLimpo = [] then [] else zfill 17 numeroLimpo

/-- The request-identifier builder of `nfse_client.py`'s
`construir_id_dps`: empty when the formatted number is empty, else the
configured prefix followed by the formatted number. -/
def construirIdDps (prefixoIddps : String) (numeroNfse : String) : List Char :=
  let numeroFormatado := formatarNumeroNfse numeroNfse
  if numeroFormatado = [] then [] else prefixoIddps.data ++ numeroFormatado

/-- C7 — The request identifier equals the configured fixed prefix
followed by the number's digit projection zero-padded to 17 digits, and
the construction yields the empty failure value exactly when the digit
projection is empty; number `"29"` yields prefix plus
`"00000000000000029"`. -/
theorem construirIdDps_spec (prefixoIddps numeroNfse : String) :
    (construirIdDps prefixoIddps numeroNfse = [] ↔ limpar numeroNfse = []) ∧
    (limpar numeroNfse ≠ [] →
      construirIdDps prefixoIddps numeroNfse =
        prefixoIddps.data ++ zfill 17 (limpar numeroNfse)) ∧
    construirIdDps prefixoIddps "29" =
      prefixoIddps.data ++ "00000000000000029".data := by
  have hz : ∀ s : List Char, s ≠ [] → zfill 17 s ≠ [] := by
    intro s hs
    unfold zfill
    intro hcontra
    rcases List.append_eq_nil.mp hcontra with ⟨-, h2⟩
    exact hs h2
  refine ⟨?_, ?_, ?_⟩
  · constructor
    · intro h
      by_contra hne
      unfold construirIdDps formatarNumeroNfse at h
      rw [if_neg hne] at h
      rw [if_neg (hz _ hne)] at h
      rcases List.append_eq_nil.mp h with ⟨-, h2⟩
      exact hz _ hne h2
    · intro h
      unfold construirIdDps formatarNumeroNfse
      rw [if_pos h]
      simp
  · intro hne
    unfold construirIdDps formatarNumeroNfse
    rw [if_neg hne, if_neg (hz _ hne)]
  · unfold construirIdDps formatarNumeroNfse
    rw [if_neg (by decide), if_neg (by decide)]
    congr 1

/-- Witness for C7: the spec's example, prefix
`"DPS4205407247791668000249009"` and number `"29"`. -/
theorem construirIdDps_spec_witness :
    construirIdDps "DPS4205407247791668000249009" "29" =
      "DPS4205407247791668000249009".data ++ "00000000000000029".data :=
  (construirIdDps_spec "DPS4205407247791668000249009" "29").2.2

/-- Model of a Python `datetime` as the repository compares and adjusts
them: the calendar date collapsed to one day index, plus hour, minute,
second and microsecond; ordering is lexicographic, as for `datetime`. -/
structure DataHora where
  dia : Nat
  hora : Nat
  minuto : Nat
  segundo : Nat
  micro : Nat
deriving DecidableEq

/-- Strict lexicographic order on `DataHora`, the model of `<` on
`datetime` values. -/
def dtLt (a b : DataHora) : Prop :=
  a.dia < b.dia ∨ (a.dia = b.dia ∧
    (a.hora < b.hora ∨ (a.hora = b.hora ∧
      (a.minuto < b.minuto ∨ (a.minuto = b.minuto ∧
        (a.segundo < b.segundo ∨ (a.segundo = b.segundo ∧
          a.micro < b.micro)))))))

/-- Reflexive lexicographic order on `DataHora`, the model of `<=` on
`datetime` values. -/
def dtLe (a b : DataHora) : Prop :=
  a.dia < b.dia ∨ (a.dia = b.dia ∧
    (a.hora < b.hora ∨ (a.hora = b.hora ∧
      (a.minuto < b.minuto ∨ (a.minuto = b.minuto ∧
        (a.segundo < b.segundo ∨ (a.segundo = b.segundo ∧
          a.micro ≤ b.micro)))))))

instance : DecidableRel dtLt := fun a b =>
  inferInstanceAs (Decidable (a.dia < b.dia ∨ (a.dia = b.dia ∧
    (a.hora < b.hora ∨ (a.hora = b.hora ∧
      (a.minuto < b.minuto ∨ (a.minuto = b.minuto ∧
        (a.segundo < b.segundo ∨ (a.segundo = b.segundo ∧
          a.micro < b.micro)))))))))

instance : DecidableRel dtLe := fun a b =>
  inferInstanceAs (Decidable (a.dia < b.dia ∨ (a.dia = b.dia ∧
    (a.hora < b.hora ∨ (a.hora = b.hora ∧
      (a.minuto < b.minuto ∨ (a.minuto = b.minuto ∧
        (a.segundo < b.segundo ∨ (a.segundo = b.segundo ∧
          a.micro ≤ b.micro)))))))))

/-- One raw search hit as `buscar_boleto_e_nf` produces them: the tuple
`(caminho, nome, data_mod, tipo)` with `tipo` either `"BOLETO"` or
`"NF"`. -/
structure Hit where
  caminho : String
  nome : String
  dataMod : DataHora
  tipo : String
deriving DecidableEq

instance : Inhabited DataHora := ⟨⟨0, 0, 0, 0, 0⟩⟩

instance : Inhabited Hit := ⟨⟨"", "", default, ""⟩⟩

/-- Configuration record consumed by the session manager: the fields of
`SFTPClient.__init__` that `conectar` touches. -/
structure ConfigSessao where
  diretorioRemoto : String
deriving DecidableEq

/-- Session state of `SFTPClient`: `ssh` is `none` when the attribute is
`None`, `some false` when an `SSHClient` object is assigned but not
connected, and `some true` when it is connected; `sftp` is `some ()` when
an SFTP channel object is assigned. `diretorioAtual` mirrors the cursor
attribute of the same name. -/
structure EstadoSessao where
  ssh : Option Bool
  sftp : Option Unit
  diretorioAtual : String
deriving DecidableEq

/-- Which step of `conectar` fails, the outcome of the calls into the
transport library: `falhaAutentica` and `falhaConexao` are the
`AuthenticationException` / other exceptions raised by `SSHClient.connect`,
`falhaAbrirSftp` an exception from `open_sftp`, `falhaChdir` one from
`sftp.chdir`, and `sucesso` the unexceptional run. -/
inductive ResultadoConexao where
  | falhaAutentica
  | falhaConexao
  | falhaAbrirSftp
  | falhaChdir
  | sucesso
deriving DecidableEq

/-- The `conectar` method of `ftp_client.py` (lines 123-166) as a state
transition: it first assigns a fresh unconnected `SSHClient` to `ssh`,
then connects, opens the SFTP channel and changes directory; every
exception path returns `(False, message)` from inside the `except`
clauses without undoing any of the assignments already made. -/
def conectar (cfg : ConfigSessao) (st : EstadoSessao) (r : ResultadoConexao) :
    EstadoSessao × Bool × String :=
  match r with
  | .falhaAutentica =>
    ({ ssh := some false, sftp := st.sftp, diretorioAtual := st.diretorioAtual },
      false, "Erro de autenticacao: usuario ou senha invalidos")
  | .falhaConexao =>
    ({ ssh := some false, sftp := st.sftp, diretorioAtual := st.diretorioAtual },
      false, "Erro ao conectar")
  | .falhaAbrirSftp =>
    ({ ssh := some true, sftp := st.sftp, diretorioAtual := st.diretorioAtual },
      false, "Erro ao conectar")
  | .falhaChdir =>
    ({ ssh := some true, sftp := some (), diretorioAtual := st.diretorioAtual },
      false, "Erro ao conectar")
  | .sucesso =>
    ({ ssh := some true, sftp := some (), diretorioAtual := cfg.diretorioRemoto },
      true, "Conectado ao servidor SFTP")

/-- The `desconectar` method of `ftp_client.py` (lines 168-182): closes
whatever handles exist, swallowing close errors, and sets both attributes
to `None`. -/
def desconectar (st : EstadoSessao) : EstadoSessao :=
  { ssh := none, sftp := none, diretorioAtual := st.diretorioAtual }

/-- The claim of C2 as stated: every failing `conectar` call leaves the
session rolled back to empty. -/
def conectarTudoOuNada : Prop :=
  ∀ (cfg : ConfigSessao) (st : EstadoSessao) (r : ResultadoConexao),
    (conectar cfg st r).2.1 = false →
    (conectar cfg st r).1.ssh = none ∧ (conectar cfg st r).1.sftp = none

/-- Counterexample to C2: starting from the empty session, a failure while
opening the SFTP channel returns failure yet leaves the transport handle
live and the file-transfer handle absent — the session is neither rolled
back to empty nor in the both-live-or-both-absent shape. -/
theorem conectar_nao_tudoOuNada :
    (conectar ⟨"/boletos"⟩ ⟨none, none, "/boletos"⟩ .falhaAbrirSftp).2.1 = false ∧
    (conectar ⟨"/boletos"⟩ ⟨none, none, "/boletos"⟩ .falhaAbrirSftp).1.ssh = some true ∧
    (conectar ⟨"/boletos"⟩ ⟨none, none, "/boletos"⟩ .falhaAbrirSftp).1.sftp = none ∧
    ¬ conectarTudoOuNada := by
  refine ⟨rfl, rfl, rfl, ?_⟩
  intro h
  have := h ⟨"/boletos"⟩ ⟨none, none, "/boletos"⟩ .falhaAbrirSftp rfl
  simp [conectar] at this

/-- C2 amended — `conectar` is not all-or-nothing: on any failing step it
returns an error result but tears nothing down. The transport handle is
always left assigned (live once authentication succeeded, which includes
the failure opening the SFTP channel and the directory-change failure),
the file-transfer handle is left live after a directory-change failure and
otherwise keeps its previous value, so the both-live-or-both-absent
invariant can be violated; only `desconectar` resets the session to empty,
for every starting state. -/
theorem conectar_sem_rollback (cfg : ConfigSessao) (st : EstadoSessao)
    (r : ResultadoConexao) (hfalha : r ≠ .sucesso) :
    (conectar cfg st r).2.1 = false ∧
    (conectar cfg st r).1.ssh ≠ none ∧
    ((r = .falhaAbrirSftp ∨ r = .falhaChdir) → (conectar cfg st r).1.ssh = some true) ∧
    (r = .falhaChdir → (conectar cfg st r).1.sftp = some ()) ∧
    ((r = .falhaAutentica ∨ r = .falhaConexao ∨ r = .falhaAbrirSftp) →
      (conectar cfg st r).1.sftp = st.sftp) ∧
    (desconectar (conectar cfg st r).1).ssh = none ∧
    (desconectar (conectar cfg st r).1).sftp = none := by
  cases r with
  | falhaAutentica => exact ⟨rfl, by simp [conectar], by simp, by simp, fun _ => rfl, rfl, rfl⟩
  | falhaConexao => exact ⟨rfl, by simp [conectar], by simp, by simp, fun _ => rfl, rfl, rfl⟩
  | falhaAbrirSftp => exact ⟨rfl, by simp [conectar], fun _ => rfl, by simp, fun _ => rfl, rfl, rfl⟩
  | falhaChdir => exact ⟨rfl, by simp [conectar], fun _ => rfl, fun _ => rfl, by simp, rfl, rfl⟩
  | sucesso => exact absurd rfl hfalha

/-- Witness for the amended C2 at the directory-change failure from the
empty session: the call fails yet both handles are live afterwards. -/
theorem conectar_sem_rollback_witness :
    (conectar ⟨"/boletos"⟩ ⟨none, none, "/x"⟩ .falhaChdir).2.1 = false ∧
    (conectar ⟨"/boletos"⟩ ⟨none, none, "/x"⟩ .falhaChdir).1.sftp = some () := by
  have h := conectar_sem_rollback ⟨"/boletos"⟩ ⟨none, none, "/x"⟩ .falhaChdir (by decide)
  exact ⟨h.1, h.2.2.2.1 rfl⟩

/-- Association-list lookup, the model of `d[k]` / `k in d` on a Python
dict represented as its insertion-ordered item list. -/
def procurar {κ α : Type} [DecidableEq κ] (k : κ) : List (κ × α) → Option α
  | [] => none
  | (k', v) :: rest => if k = k' then some v else procurar k rest

/-- One step of the first phase of `_agrupar_resultados`
(`interface.py` lines 910-914): under key `(numero_chave, tipo)` keep the
stored hit unless the incoming one has a strictly larger `data_mod`; a new
key is appended at the end, as a Python dict insertion does. -/
def dictInsert (k : List Char × String) (h : Hit) :
    List ((List Char × String) × Hit) → List ((List Char × String) × Hit)
  | [] => [(k, h)]
  | (k', h') :: rest =>
    if k = k' then
      (if dtLt h'.dataMod h.dataMod then (k', h) else (k', h')) :: rest
    else
      (k', h') :: dictInsert k h rest

/-- The `mais_recentes` dict of `_agrupar_resultados` (lines 898-914):
fold the hit list in input order, keying by `(chaveDoc nome, tipo)`. -/
def maisRecentes (hits : List Hit) : List ((List Char × String) × Hit) :=
  hits.foldl (fun m h => dictInsert (chaveDoc h.nome, h.tipo) h m) []

/-- One step of the second phase of `_agrupar_resultados` (lines 917-921):
append the hit to the member list of its DocumentKey, creating the group
at the end of the dict when the key is new. -/
def dictAppend (k : List Char) (h : Hit) :
    List (List Char × List Hit) → List (List Char × List Hit)
  | [] => [(k, [h])]
  | (k', hs) :: rest =>
    if k = k' then (k', hs ++ [h]) :: rest
    else (k', hs) :: dictAppend k h rest

/-- Sort order used on group members (line 925): the Python key
`(0 if tipo == 'NF' else 1, nome)`. -/
def tipoOrd (h : Hit) : Nat :=
  if h.tipo = "NF" then 0 else 1

/-- Reflexive member order: NF before anything else, file name ascending
as tie break. -/
def hitLe (a b : Hit) : Prop :=
  tipoOrd a < tipoOrd b ∨ (tipoOrd a = tipoOrd b ∧ a.nome ≤ b.nome)

instance : DecidableRel hitLe := fun a b =>
  inferInstanceAs (Decidable (tipoOrd a < tipoOrd b ∨ (tipoOrd a = tipoOrd b ∧ a.nome ≤ b.nome)))

instance : IsTotal Hit hitLe where
  total a b := by
    unfold hitLe
    rcases Nat.lt_trichotomy (tipoOrd a) (tipoOrd b) with h | h | h
    · exact Or.inl (Or.inl h)
    · rcases le_total a.nome b.nome with hn | hn
      · exact Or.inl (Or.inr ⟨h, hn⟩)
      · exact Or.inr (Or.inr ⟨h.symm, hn⟩)
    · exact Or.inr (Or.inl h)

instance : IsTrans Hit hitLe where
  trans a b c hab hbc := by
    unfold hitLe at hab hbc ⊢
    rcases hab with hab | ⟨hab, hab'⟩ <;> rcases hbc with hbc | ⟨hbc, hbc'⟩
    · exact Or.inl (hab.trans hbc)
    · exact Or.inl (hbc ▸ hab)
    · exact Or.inl (hab ▸ hbc)
    · exact Or.inr ⟨hab.trans hbc, hab'.trans hbc'⟩

/-- The grouper `_agrupar_resultados` of `interface.py` (lines 885-927):
keep the most recent hit per `(DocumentKey, tipo)` pair, partition the
kept hits by DocumentKey into an insertion-ordered dict of groups, and
sort each group NF-first then by file name (Python's stable sort, modelled
by `List.insertionSort`). The returned value models the `grupos` dict as
its insertion-ordered item list. -/
def agrupar (resultados : List Hit) : List (List Char × List Hit) :=
  let mr := maisRecentes resultados
  let grupos := mr.foldl (fun g p => dictAppend p.1.1 p.2 g) []
  grupos.map (fun p => (p.1, List.insertionSort hitLe p.2))

/-- Flattening of grouped results back into a hit list, group by group in
dict order, members in their stored order. -/
def achatar (grupos : List (List Char × List Hit)) : List Hit :=
  (grupos.map Prod.snd).flatten

/-- Reference reduction retaining, among hits of one `(key, tipo)` pair,
the hit with the latest `data_mod`, the FIRST encountered winning ties —
this is what the strict `>` comparison on line 913 implements. -/
def retemPrimeiro (l : List Hit) : Option Hit :=
  l.foldl (fun acc h =>
    match acc with
    | none => some h
    | some b => if dtLt b.dataMod h.dataMod then some h else some b) none

/-- Reduction the claim text describes: latest `data_mod` wins and the
LAST encountered wins ties. -/
def retemUltimo (l : List Hit) : Option Hit :=
  l.foldl (fun acc h =>
    match acc with
    | none => some h
    | some b => if dtLe b.dataMod h.dataMod then some h else some b) none

/-- The claim of C1 as stated: per `(DocumentKey, tipo)` pair the grouper
keeps the hit with the latest `modifiedAt`, ties resolved by
last-encountered in input order. -/
def grouperRetemUltimo : Prop :=
  ∀ (hits : List Hit) (k : List Char) (t : String),
    procurar (k, t) (maisRecentes hits) =
      retemUltimo (hits.filter (fun h => decide (chaveDoc h.nome = k ∧ h.tipo = t)))

theorem procurar_dictInsert (k0 k : List Char × String) (h : Hit)
    (m : List ((List Char × String) × Hit)) :
    procurar k0 (dictInsert k h m) =
      if k0 = k then
        (match procurar k0 m with
          | none => some h
          | some b => if dtLt b.dataMod h.dataMod then some h else some b)
      else procurar k0 m := by
  induction m with
  | nil =>
    by_cases hk : k0 = k
    · subst hk
      simp [dictInsert, procurar]
    · simp [dictInsert, procurar, hk]
  | cons p rest ih =>
    obtain ⟨k', h'⟩ := p
    by_cases hkk : k = k'
    · subst hkk
      by_cases hk0 : k0 = k
      · subst hk0
        by_cases hd : dtLt h'.dataMod h.dataMod
        · simp [dictInsert, procurar, hd]
        · simp [dictInsert, procurar, hd]
      · by_cases hd : dtLt h'.dataMod h.dataMod
        · simp [dictInsert, procurar, hd, hk0]
        · simp [dictInsert, procurar, hd, hk0]
    · by_cases hk0 : k0 = k'
      · subst hk0
        have hne : ¬ k0 = k := fun hc => hkk hc.symm
        simp [dictInsert, hkk, procurar, hne]
      · simp [dictInsert, hkk, procurar, hk0, ih]

theorem procurar_maisRecentes_aux (hits : List Hit) (k : List Char) (t : String)
    (m : List ((List Char × String) × Hit)) :
    procurar (k, t) (hits.foldl (fun m h => dictInsert (chaveDoc h.nome, h.tipo) h m) m) =
      (hits.filter (fun h => decide (chaveDoc h.nome = k ∧ h.tipo = t))).foldl
        (fun acc h =>
          match acc with
          | none => some h
          | some b => if dtLt b.dataMod h.dataMod then some h else some b)
        (procurar (k, t) m) := by
  induction hits generalizing m with
  | nil => simp
  | cons h hs ih =>
    rw [List.foldl_cons, ih]
    by_cases hp : chaveDoc h.nome = k ∧ h.tipo = t
    · have hkey : ((k, t) : List Char × String) = (chaveDoc h.nome, h.tipo) := by
        rw [hp.1, hp.2]
      rw [List.filter_cons_of_pos (by simpa using hp), List.foldl_cons,
        procurar_dictInsert, if_pos hkey]
    · have hkey : ¬ ((k, t) : List Char × String) = (chaveDoc h.nome, h.tipo) := by
        intro hc
        exact hp ⟨(Prod.mk.injEq _ _ _ _ ▸ hc).1.symm, (Prod.mk.injEq _ _ _ _ ▸ hc).2.symm⟩
      rw [List.filter_cons_of_neg (by simpa using hp), procurar_dictInsert, if_neg hkey]

/-- C1 amended — for each `(DocumentKey, documentType)` pair the grouper
retains exactly the hit with the latest `modifiedAt`, but when two hits of
the pair have equal `modifiedAt` the one encountered FIRST in input order
is retained (the code replaces the stored hit only on a strictly larger
date). -/
theorem grouperRetemPrimeiro (hits : List Hit) (k : List Char) (t : String) :
    procurar (k, t) (maisRecentes hits) =
      retemPrimeiro (hits.filter (fun h => decide (chaveDoc h.nome = k ∧ h.tipo = t))) := by
  unfold maisRecentes retemPrimeiro
  exact procurar_maisRecentes_aux hits k t []

/-- Counterexample to C1 as stated: two distinct hits with the same
DocumentKey, the same type and equal `modifiedAt` — the grouper retains
the first, not the last. -/
theorem grouperRetemUltimo_falso :
    (let h1 : Hit := ⟨"/b/010001000005909.pdf", "010001000005909.pdf",
        ⟨20240101, 12, 0, 0, 0⟩, "BOLETO"⟩
     let h2 : Hit := ⟨"/b/sub/010001000005909_v2.pdf", "010001000005909_v2.pdf",
        ⟨20240101, 12, 0, 0, 0⟩, "BOLETO"⟩
     h1.dataMod = h2.dataMod ∧ h1 ≠ h2 ∧
       chaveDoc h1.nome = chaveDoc h2.nome ∧
       agrupar [h1, h2] = [("010001000005909".data, [h1])] ∧
       retemUltimo [h1, h2] = some h2) ∧
    ¬ grouperRetemUltimo := by
  constructor
  · exact ⟨rfl, by decide, by decide, by decide, by decide⟩
  · intro hclaim
    have := hclaim
      [⟨"/b/010001000005909.pdf", "010001000005909.pdf",
          ⟨20240101, 12, 0, 0, 0⟩, "BOLETO"⟩,
       ⟨"/b/sub/010001000005909_v2.pdf", "010001000005909_v2.pdf",
          ⟨20240101, 12, 0, 0, 0⟩, "BOLETO"⟩]
      ("010001000005909".data) "BOLETO"
    revert this
    decide

/-- The `(DocumentKey, tipo)` dict key of a hit in the first phase of
`_agrupar_resultados`. -/
def parChave (h : Hit) : List Char × String :=
  (chaveDoc h.nome, h.tipo)

theorem dictInsert_fresh (k : List Char × String) (h : Hit)
    (m : List ((List Char × String) × Hit)) (hfresh : procurar k m = none) :
    dictInsert k h m = m ++ [(k, h)] := by
  induction m with
  | nil => rfl
  | cons p rest ih =>
    obtain ⟨k', h'⟩ := p
    by_cases hk : k = k'
    · rw [procurar, if_pos hk] at hfresh
      exact absurd hfresh (by simp)
    · rw [procurar, if_neg hk] at hfresh
      rw [dictInsert, if_neg hk, ih hfresh, List.cons_append]

theorem procurar_append_single {κ α : Type} [DecidableEq κ] (k k1 : κ) (v1 : α)
    (m : List (κ × α)) (hm : procurar k m = none) (hne : k ≠ k1) :
    procurar k (m ++ [(k1, v1)]) = none := by
  induction m with
  | nil => simp [procurar, hne]
  | cons p rest ih =>
    obtain ⟨k', v'⟩ := p
    by_cases hk : k = k'
    · rw [procurar, if_pos hk] at hm
      exact absurd hm (by simp)
    · rw [procurar, if_neg hk] at hm
      rw [List.cons_append, procurar, if_neg hk]
      exact ih hm

theorem foldl_dictInsert_nodup (hits : List Hit)
    (m : List ((List Char × String) × Hit))
    (hfresh : ∀ h ∈ hits, procurar (parChave h) m = none)
    (hnodup : (hits.map parChave).Nodup) :
    hits.foldl (fun m h => dictInsert (chaveDoc h.nome, h.tipo) h m) m =
      m ++ hits.map (fun h => (parChave h, h)) := by
  induction hits generalizing m with
  | nil => simp
  | cons h hs ih =>
    have hcons : parChave h ∉ hs.map parChave ∧ (hs.map parChave).Nodup := by
      rw [List.map_cons, List.nodup_cons] at hnodup
      exact hnodup
    rw [List.foldl_cons]
    have hstep : dictInsert (chaveDoc h.nome, h.tipo) h m = m ++ [(parChave h, h)] :=
      dictInsert_fresh _ _ _ (hfresh h (by simp))
    rw [hstep, ih]
    · simp
    · intro h' hmem
      have hne : parChave h' ≠ parChave h := by
        intro hc
        exact hcons.1 (hc ▸ List.mem_map_of_mem parChave hmem)
      exact procurar_append_single _ _ _ _ (hfresh h' (by simp [hmem])) hne
    · exact hcons.2

/-- When every `(DocumentKey, tipo)` pair occurs at most once, the first
phase of the grouper keeps every hit unchanged, in order. -/
theorem maisRecentes_of_nodup (hits : List Hit)
    (hnodup : (hits.map parChave).Nodup) :
    maisRecentes hits = hits.map (fun h => (parChave h, h)) := by
  unfold maisRecentes
  have := foldl_dictInsert_nodup hits [] (fun h _ => rfl) hnodup
  simpa using this

theorem dictInsert_mem_inv (P : ((List Char × String) × Hit) → Prop)
    (k : List Char × String) (h : Hit) :
    ∀ (m : List ((List Char × String) × Hit)),
      (∀ p ∈ m, P p) → P (k, h) → ∀ p ∈ dictInsert k h m, P p := by
  intro m
  induction m with
  | nil =>
    intro _ hkh p hp
    rw [dictInsert] at hp
    rw [List.mem_singleton.mp hp]
    exact hkh
  | cons q rest ih =>
    obtain ⟨k', h'⟩ := q
    intro hm hkh p hp
    by_cases hk : k = k'
    · rw [dictInsert, if_pos hk] at hp
      by_cases hd : dtLt h'.dataMod h.dataMod
      · rw [if_pos hd] at hp
        rcases List.mem_cons.mp hp with hp | hp
        · subst hp
          exact hk ▸ hkh
        · exact hm _ (List.mem_cons_of_mem _ hp)
      · rw [if_neg hd] at hp
        rcases List.mem_cons.mp hp with hp | hp
        · subst hp
          exact hm _ (by simp)
        · exact hm _ (List.mem_cons_of_mem _ hp)
    · rw [dictInsert, if_neg hk] at hp
      rcases List.mem_cons.mp hp with hp | hp
      · subst hp
        exact hm _ (by simp)
      · exact ih (fun q hq => hm q (List.mem_cons_of_mem _ hq)) hkh p hp

/-- Every entry of `mais_recentes` is stored under the pair key computed
from the hit it stores. -/
theorem maisRecentes_parChave (hits : List Hit) :
    ∀ p ∈ maisRecentes hits, p.1 = parChave p.2 := by
  unfold maisRecentes
  generalize hacc : ([] : List ((List Char × String) × Hit)) = acc
  have hbase : ∀ p ∈ acc, p.1 = parChave p.2 := by
    subst hacc
    simp
  clear hacc
  induction hits generalizing acc with
  | nil => simpa using hbase
  | cons h hs ih =>
    rw [List.foldl_cons]
    exact ih _ (dictInsert_mem_inv _ _ _ _ hbase rfl)

theorem dictInsert_chaves (k : List Char × String) (h : Hit)
    (m : List ((List Char × String) × Hit)) :
    (dictInsert k h m).map Prod.fst =
      if k ∈ m.map Prod.fst then m.map Prod.fst else m.map Prod.fst ++ [k] := by
  induction m with
  | nil => simp [dictInsert]
  | cons p rest ih =>
    obtain ⟨k', h'⟩ := p
    by_cases hk : k = k'
    · subst hk
      by_cases hd : dtLt h'.dataMod h.dataMod
      · simp [dictInsert, hd]
      · simp [dictInsert, hd]
    · by_cases hmem : k ∈ rest.map Prod.fst
      · simp [dictInsert, hk, ih, hmem, hk]
      · simp [dictInsert, hk, ih, hmem]

/-- The pair keys of `mais_recentes` are distinct. -/
theorem maisRecentes_chaves_nodup (hits : List Hit) :
    ((maisRecentes hits).map Prod.fst).Nodup := by
  unfold maisRecentes
  generalize hacc : ([] : List ((List Char × String) × Hit)) = acc
  have hbase : (acc.map Prod.fst).Nodup := by
    subst hacc
    simp
  clear hacc
  induction hits generalizing acc with
  | nil => simpa using hbase
  | cons h hs ih =>
    rw [List.foldl_cons]
    refine ih _ ?_
    rw [dictInsert_chaves]
    by_cases hmem : (chaveDoc h.nome, h.tipo) ∈ acc.map Prod.fst
    · rwa [if_pos hmem]
    · rw [if_neg hmem]
      refine List.Nodup.append hbase (List.nodup_singleton _) ?_
      intro a ha hb
      rw [List.mem_singleton] at hb
      exact hmem (hb ▸ ha)

theorem dictAppend_chaves (k : List Char) (h : Hit) (g : List (List Char × List Hit)) :
    (dictAppend k h g).map Prod.fst =
      if k ∈ g.map Prod.fst then g.map Prod.fst else g.map Prod.fst ++ [k] := by
  induction g with
  | nil => simp [dictAppend]
  | cons q rest ih =>
    obtain ⟨k', hs⟩ := q
    by_cases hk : k = k'
    · subst hk
      simp [dictAppend]
    · by_cases hmem : k ∈ rest.map Prod.fst
      · simp [dictAppend, hk, ih, hmem]
      · simp [dictAppend, hk, ih, hmem]

theorem dictAppend_fresh (k : List Char) (h : Hit) (g : List (List Char × List Hit))
    (hk : k ∉ g.map Prod.fst) : dictAppend k h g = g ++ [(k, [h])] := by
  induction g with
  | nil => rfl
  | cons q rest ih =>
    obtain ⟨k', hs⟩ := q
    have hne : k ≠ k' := by
      intro hc
      exact hk (by simp [hc])
    rw [dictAppend, if_neg hne, ih (fun hc => hk (by simp [hc])), List.cons_append]

theorem dictAppend_last (k : List Char) (h : Hit) (g : List (List Char × List Hit))
    (cur : List Hit) (hk : k ∉ g.map Prod.fst) :
    dictAppend k h (g ++ [(k, cur)]) = g ++ [(k, cur ++ [h])] := by
  induction g with
  | nil => simp [dictAppend]
  | cons q rest ih =>
    obtain ⟨k', hs⟩ := q
    have hne : k ≠ k' := by
      intro hc
      exact hk (by simp [hc])
    rw [List.cons_append, dictAppend, if_neg hne, ih (fun hc => hk (by simp [hc])),
      List.cons_append]

theorem foldl_dictAppend_bloco (k : List Char) (g : List (List Char × List Hit))
    (hk : k ∉ g.map Prod.fst) (hs : List Hit) (hmem : ∀ h ∈ hs, chaveDoc h.nome = k) :
    ∀ (cur : List Hit),
      hs.foldl (fun g h => dictAppend (chaveDoc h.nome) h g) (g ++ [(k, cur)]) =
        g ++ [(k, cur ++ hs)] := by
  induction hs with
  | nil => simp
  | cons h hs' ih =>
    intro cur
    rw [List.foldl_cons, hmem h (by simp), dictAppend_last k h g cur hk,
      ih (fun h' hm => hmem h' (by simp [hm])) (cur ++ [h])]
    simp

theorem foldl_dictAppend_blocos (gs : List (List Char × List Hit)) :
    ∀ (acc : List (List Char × List Hit)),
      (acc.map Prod.fst ++ gs.map Prod.fst).Nodup →
      (∀ p ∈ gs, p.2 ≠ [] ∧ ∀ h ∈ p.2, chaveDoc h.nome = p.1) →
      ((gs.map Prod.snd).flatten).foldl (fun g h => dictAppend (chaveDoc h.nome) h g) acc =
        acc ++ gs := by
  induction gs with
  | nil => simp
  | cons q gs' ih =>
    obtain ⟨k, hs⟩ := q
    intro acc hnodup hmem
    have hqmem := hmem (k, hs) (by simp)
    have hne0 : hs ≠ [] := hqmem.1
    have hmem0 : ∀ h ∈ hs, chaveDoc h.nome = k := fun h hm => hqmem.2 h hm
    obtain ⟨h0, hs'', hhs⟩ := List.exists_cons_of_ne_nil hne0
    have hkfresh : k ∉ acc.map Prod.fst := by
      intro hk
      have hdisj := List.disjoint_of_nodup_append hnodup
      exact hdisj hk (by simp)
    simp only [List.map_cons, List.flatten_cons, List.foldl_append]
    have hbloco : hs.foldl (fun g h => dictAppend (chaveDoc h.nome) h g) acc =
        acc ++ [(k, hs)] := by
      rw [hhs, List.foldl_cons, hmem0 h0 (by simp [hhs]), dictAppend_fresh k h0 acc hkfresh,
        foldl_dictAppend_bloco k acc hkfresh hs''
          (fun h' hm => hmem0 h' (by simp [hhs, hm])) [h0]]
      simp [hhs]
    rw [hbloco, ih (acc ++ [(k, hs)])]
    · simp
    · simpa using hnodup
    · exact fun p hp => hmem p (by simp [hp])

theorem foldl_dictAppend_chaves_nodup (ps : List ((List Char × String) × Hit)) :
    ∀ (acc : List (List Char × List Hit)), (acc.map Prod.fst).Nodup →
      (((ps.foldl (fun g p => dictAppend p.1.1 p.2 g) acc)).map Prod.fst).Nodup := by
  induction ps with
  | nil => exact fun acc h => h
  | cons p ps' ih =>
    intro acc hacc
    rw [List.foldl_cons]
    refine ih _ ?_
    rw [dictAppend_chaves]
    by_cases hmem : p.1.1 ∈ acc.map Prod.fst
    · rwa [if_pos hmem]
    · rw [if_neg hmem]
      refine List.Nodup.append hacc (List.nodup_singleton _) ?_
      intro a ha hb
      rw [List.mem_singleton] at hb
      exact hmem (hb ▸ ha)

theorem dictAppend_membros (k : List Char) (h : Hit) (hk : chaveDoc h.nome = k) :
    ∀ (g : List (List Char × List Hit)),
      (∀ q ∈ g, q.2 ≠ [] ∧ ∀ h' ∈ q.2, chaveDoc h'.nome = q.1) →
      ∀ q ∈ dictAppend k h g, q.2 ≠ [] ∧ ∀ h' ∈ q.2, chaveDoc h'.nome = q.1 := by
  intro g
  induction g with
  | nil =>
    intro _ q hq
    rw [dictAppend] at hq
    rw [List.mem_singleton.mp hq]
    refine ⟨by simp, ?_⟩
    intro h' hm
    rw [List.mem_singleton.mp hm]
    exact hk
  | cons q0 rest ih =>
    obtain ⟨k', hs⟩ := q0
    intro hg q hq
    by_cases hkk : k = k'
    · rw [dictAppend, if_pos hkk] at hq
      rcases List.mem_cons.mp hq with hq | hq
      · subst hq
        have hold := hg (k', hs) (by simp)
        refine ⟨by simp, ?_⟩
        intro h' hm
        rcases List.mem_append.mp hm with hm | hm
        · exact hold.2 h' hm
        · rw [List.mem_singleton.mp hm]
          exact hkk ▸ hk
      · exact hg q (List.mem_cons_of_mem _ hq)
    · rw [dictAppend, if_neg hkk] at hq
      rcases List.mem_cons.mp hq with hq | hq
      · subst hq
        exact hg _ (by simp)
      · exact ih (fun q' hq' => hg q' (List.mem_cons_of_mem _ hq')) q hq

theorem foldl_dictAppend_membros (ps : List ((List Char × String) × Hit))
    (hps : ∀ p ∈ ps, p.1.1 = chaveDoc p.2.nome) :
    ∀ (acc : List (List Char × List Hit)),
      (∀ q ∈ acc, q.2 ≠ [] ∧ ∀ h' ∈ q.2, chaveDoc h'.nome = q.1) →
      ∀ q ∈ ps.foldl (fun g p => dictAppend p.1.1 p.2 g) acc,
        q.2 ≠ [] ∧ ∀ h' ∈ q.2, chaveDoc h'.nome = q.1 := by
  induction ps with
  | nil => exact fun acc h => h
  | cons p ps' ih =>
    intro acc hacc
    rw [List.foldl_cons]
    exact ih (fun p' hp' => hps p' (List.mem_cons_of_mem _ hp'))
      _ (dictAppend_membros p.1.1 p.2 (hps p (by simp)).symm acc hacc)

/-- The multiset of `(group key, member type)` pairs stored in a `grupos`
dict, listed group by group. -/
def paresDe (g : List (List Char × List Hit)) : List (List Char × String) :=
  (g.map (fun q => q.2.map (fun h => (q.1, h.tipo)))).flatten

theorem paresDe_dictAppend (k : List Char) (h : Hit) (g : List (List Char × List Hit)) :
    paresDe (dictAppend k h g) ~ paresDe g ++ [(k, h.tipo)] := by
  induction g with
  | nil => simp [paresDe, dictAppend]
  | cons q rest ih =>
    obtain ⟨k', hs⟩ := q
    by_cases hkk : k = k'
    · subst hkk
      rw [dictAppend, if_pos rfl]
      simp only [paresDe, List.map_cons, List.flatten_cons, List.map_append]
      calc (hs.map (fun h' => (k, h'.tipo)) ++ [h].map (fun h' => (k, h'.tipo))) ++
            (rest.map (fun q => q.2.map (fun h' => (q.1, h'.tipo)))).flatten
          ~ hs.map (fun h' => (k, h'.tipo)) ++
            ([h].map (fun h' => (k, h'.tipo)) ++
              (rest.map (fun q => q.2.map (fun h' => (q.1, h'.tipo)))).flatten) := by
            rw [List.append_assoc]
        _ ~ hs.map (fun h' => (k, h'.tipo)) ++
            ((rest.map (fun q => q.2.map (fun h' => (q.1, h'.tipo)))).flatten ++
              [h].map (fun h' => (k, h'.tipo))) :=
            List.Perm.append_left _ (List.perm_append_comm)
        _ = (hs.map (fun h' => (k, h'.tipo)) ++
            (rest.map (fun q => q.2.map (fun h' => (q.1, h'.tipo)))).flatten) ++
              [(k, h.tipo)] := by
            rw [List.append_assoc]
            simp
    · rw [dictAppend, if_neg hkk]
      simp only [paresDe, List.map_cons, List.flatten_cons] at ih ⊢
      calc hs.map (fun h' => (k', h'.tipo)) ++
            ((dictAppend k h rest).map (fun q => q.2.map (fun h' => (q.1, h'.tipo)))).flatten
          ~ hs.map (fun h' => (k', h'.tipo)) ++
            ((rest.map (fun q => q.2.map (fun h' => (q.1, h'.tipo)))).flatten ++
              [(k, h.tipo)]) := List.Perm.append_left _ ih
        _ = (hs.map (fun h' => (k', h'.tipo)) ++
            (rest.map (fun q => q.2.map (fun h' => (q.1, h'.tipo)))).flatten) ++
              [(k, h.tipo)] := by rw [List.append_assoc]

theorem foldl_dictAppend_pares (ps : List ((List Char × String) × Hit)) :
    ∀ (acc : List (List Char × List Hit)),
      paresDe (ps.foldl (fun g p => dictAppend p.1.1 p.2 g) acc) ~
        paresDe acc ++ ps.map (fun p => (p.1.1, p.2.tipo)) := by
  induction ps with
  | nil => simp
  | cons p ps' ih =>
    intro acc
    rw [List.foldl_cons]
    calc paresDe (ps'.foldl (fun g p => dictAppend p.1.1 p.2 g) (dictAppend p.1.1 p.2 acc))
        ~ paresDe (dictAppend p.1.1 p.2 acc) ++ ps'.map (fun p => (p.1.1, p.2.tipo)) := ih _
      _ ~ (paresDe acc ++ [(p.1.1, p.2.tipo)]) ++ ps'.map (fun p => (p.1.1, p.2.tipo)) :=
          (paresDe_dictAppend _ _ _).append_right _
      _ = paresDe acc ++ ((p.1.1, p.2.tipo) :: ps'.map (fun p => (p.1.1, p.2.tipo))) := by
          rw [List.append_assoc]
          simp
      _ = paresDe acc ++ (p :: ps').map (fun p => (p.1.1, p.2.tipo)) := by simp

theorem paresDe_map_ordenar (g : List (List Char × List Hit)) :
    paresDe (g.map (fun q => (q.1, List.insertionSort hitLe q.2))) ~ paresDe g := by
  induction g with
  | nil => simp [paresDe]
  | cons q rest ih =>
    simp only [paresDe, List.map_cons, List.flatten_cons] at ih ⊢
    refine List.Perm.append ?_ ih
    exact (List.perm_insertionSort hitLe q.2).map _

theorem achatar_map_parChave (gs : List (List Char × List Hit))
    (hmem : ∀ q ∈ gs, ∀ h ∈ q.2, chaveDoc h.nome = q.1) :
    (achatar gs).map parChave = paresDe gs := by
  induction gs with
  | nil => simp [achatar, paresDe]
  | cons q rest ih =>
    simp only [achatar, paresDe, List.map_cons, List.flatten_cons, List.map_append] at ih ⊢
    rw [ih (fun q' hq' h hm => hmem q' (List.mem_cons_of_mem _ hq') h hm)]
    congr 1
    refine List.map_congr_left ?_
    intro h hm
    unfold parChave
    rw [hmem q (by simp) h hm]

/-- C4 — Grouping is idempotent: flattening the groups produced by
`_agrupar_resultados` back into a hit list (group by group, members in
stored order) and grouping again reproduces exactly the same dict of
groups — same keys in the same order, same members in the same order. -/
theorem agrupar_idempotente (hits : List Hit) :
    agrupar (achatar (agrupar hits)) = agrupar hits := by
  have hmrpc := maisRecentes_parChave hits
  have hmrnd := maisRecentes_chaves_nodup hits
  set mr := maisRecentes hits with hmr
  set g0 := mr.foldl (fun g p => dictAppend p.1.1 p.2 g) [] with hg0
  set gg := g0.map (fun q => (q.1, List.insertionSort hitLe q.2)) with hgg
  have hagr : agrupar hits = gg := rfl
  -- keys of the grouped dict are distinct
  have hg0keys : (g0.map Prod.fst).Nodup := by
    rw [hg0]
    exact foldl_dictAppend_chaves_nodup mr [] (by simp)
  have hggfst : gg.map Prod.fst = g0.map Prod.fst := by
    rw [hgg, List.map_map]
    rfl
  -- groups are nonempty and carry hits keyed to their group
  have hg0mem : ∀ q ∈ g0, q.2 ≠ [] ∧ ∀ h' ∈ q.2, chaveDoc h'.nome = q.1 := by
    rw [hg0]
    exact foldl_dictAppend_membros mr
      (fun p hp => congrArg Prod.fst (hmrpc p hp)) [] (by simp)
  have hggmem : ∀ q ∈ gg, q.2 ≠ [] ∧ ∀ h' ∈ q.2, chaveDoc h'.nome = q.1 := by
    rw [hgg]
    intro q hq
    rcases List.mem_map.mp hq with ⟨q0, hq0, hq0eq⟩
    have h0 := hg0mem q0 hq0
    subst hq0eq
    constructor
    · intro hc
      have hc' : List.insertionSort hitLe q0.2 = [] := hc
      have := (List.perm_insertionSort hitLe q0.2).length_eq
      rw [hc'] at this
      exact h0.1 (List.eq_nil_of_length_eq_zero this.symm)
    · intro h' hm
      exact h0.2 h' ((List.perm_insertionSort hitLe q0.2).mem_iff.mp hm)
  -- the (key, type) pairs of the flattened list are exactly the distinct
  -- pair keys of mais_recentes, up to permutation
  have hpares0 : paresDe g0 ~ mr.map Prod.fst := by
    have hperm := foldl_dictAppend_pares mr []
    rw [← hg0] at hperm
    have hmapeq : mr.map (fun p => (p.1.1, p.2.tipo)) = mr.map Prod.fst := by
      refine List.map_congr_left ?_
      intro p hp
      rw [hmrpc p hp]
      rfl
    rw [hmapeq] at hperm
    simpa [paresDe] using hperm
  have hparesgg : paresDe gg ~ mr.map Prod.fst := by
    rw [hgg]
    exact (paresDe_map_ordenar g0).trans hpares0
  have hflatnodup : ((achatar gg).map parChave).Nodup := by
    rw [achatar_map_parChave gg (fun q hq h hm => (hggmem q hq).2 h hm)]
    exact hparesgg.nodup_iff.mpr hmrnd
  -- regrouping the flattened list
  have hmr2 : maisRecentes (achatar gg) =
      (achatar gg).map (fun h => (parChave h, h)) :=
    maisRecentes_of_nodup _ hflatnodup
  have hfold2 : (maisRecentes (achatar gg)).foldl (fun g p => dictAppend p.1.1 p.2 g) [] = gg := by
    rw [hmr2, List.foldl_map]
    have : ((gg.map Prod.snd).flatten).foldl
        (fun g h => dictAppend (chaveDoc h.nome) h g) [] = [] ++ gg := by
      refine foldl_dictAppend_blocos gg [] ?_ ?_
      · rw [hggfst]
        simpa using hg0keys
      · exact hggmem
    simpa [achatar] using this
  have hsorted : ∀ q ∈ gg, List.Sorted hitLe q.2 := by
    rw [hgg]
    intro q hq
    rcases List.mem_map.mp hq with ⟨q0, _, hq0eq⟩
    subst hq0eq
    exact List.sorted_insertionSort hitLe q0.2
  have hfinal : agrupar (achatar gg) = gg := by
    show ((maisRecentes (achatar gg)).foldl (fun g p => dictAppend p.1.1 p.2 g) []).map
        (fun q => (q.1, List.insertionSort hitLe q.2)) = gg
    rw [hfold2]
    have hid : gg.map (fun q => (q.1, List.insertionSort hitLe q.2)) = gg.map (fun q => q) :=
      List.map_congr_left (fun q hq => by rw [(hsorted q hq).insertionSort_eq])
    rw [hid]
    simp
  rw [hagr]
  exact hfinal.trans hagr.symm

/-- One marked row of the results table as `_baixar_multiplos` reads it:
document type, document number (column 2), file name, remote path, plus
the outcome of `baixar_boleto` for this row, which stands in for the
remote download side effect. -/
structure Linha where
  tipo : String
  numero : String
  nome : String
  caminho : String
  baixaOk : Bool
deriving DecidableEq

instance : Inhabited Linha := ⟨⟨"", "", "", "", false⟩⟩

/-- The separator rows inserted between groups in the results table,
skipped by `_baixar_multiplos`. -/
def sepLinha : String := "───"

/-- Adding an element to a Python `set` modelled as an insertion-ordered
duplicate-free list. -/
def dedupAdiciona (acc : List String) (x : String) : List String :=
  if x ∈ acc then acc else acc ++ [x]

/-- The `numeros_docs` set of `_baixar_multiplos` (lines 1377-1394): the
document numbers of the non-separator rows that are neither empty nor
`"-"`. -/
def numerosMarcados (ls : List Linha) : List String :=
  ls.foldl
    (fun acc l => if l.numero ≠ "" ∧ l.numero ≠ "-" then dedupAdiciona acc l.numero else acc)
    []

/-- Numeric sort key of an identifier (line 1403): its integer value when
it is all digits, else 0. -/
def intKey (s : String) : Nat :=
  if s.data ≠ [] ∧ s.data.all Char.isDigit then
    s.data.foldl (fun n c => n * 10 + (c.toNat - 48)) 0
  else 0

/-- Identifier order used by `sorted(..., key=...)`. -/
def numLe (a b : String) : Prop := intKey a ≤ intKey b

instance : DecidableRel numLe := fun a b => Nat.decLe (intKey a) (intKey b)

/-- Python's `"-".join`. -/
def juntarHifen : List String → String
  | [] => ""
  | [x] => x
  | x :: rest => x ++ "-" ++ juntarHifen rest

/-- The identifier segment of the archive name (lines 1400-1409): sorted
numerically; `first-last` range when more than three identifiers, plain
hyphen join otherwise; `"doc"` when no identifiers were collected. -/
def identificadorEsperado (nums : List String) : String :=
  if nums ≠ [] then
    let ordenados := List.insertionSort numLe nums
    if 3 < ordenados.length then ordenados.headD "" ++ "-" ++ ordenados.getLastD ""
    else juntarHifen ordenados
  else "doc"

/-- The archive type prefix as the spec words it: the combined prefix when
both document types are present, else the single present type's prefix. -/
def prefixoEsperado (tipos : List String) : String :=
  if "NF" ∈ tipos ∧ "BOLETO" ∈ tipos then "NFBOL"
  else if "NF" ∈ tipos then "NF"
  else "BOL"

/-- Aggregate outcome of a batch download: success flag, archive path,
files removed after archiving, success and failure counts, and the
per-item error messages. -/
structure ResultadoLote where
  sucesso : Bool
  zipCaminho : Option String
  removidos : List String
  qtdOk : Nat
  qtdErro : Nat
  erros : List String
deriving DecidableEq

/-- The batch download orchestration of `_baixar_multiplos`
(`interface.py` lines 1373-1465): skip separator rows, collect the
distinct document numbers of all marked rows, derive the identifier
segment before downloading, download sequentially (each row's `baixaOk`
gives the outcome, the local path is the download folder joined with the
file name), then on at least one success build the archive name
`PREFIXO_IDENTIFICADOR_DATA.zip` from the types actually downloaded and
remove the individual files; with zero successes report failure and no
archive. File-system effects (archive creation, file removal) are
reported as result data. -/
def baixarMultiplos (pasta dataFmt : String) (selecao : List Linha) : ResultadoLote :=
  let arquivos := selecao.filter (fun l => l.tipo != sepLinha)
  let numerosDocs := numerosMarcados arquivos
  let identificador :=
    if numerosDocs ≠ [] then
      let ordenados := List.insertionSort numLe numerosDocs
      if 3 < ordenados.length then ordenados.headD "" ++ "-" ++ ordenados.getLastD ""
      else juntarHifen ordenados
    else "doc"
  let baixados := (arquivos.filter (fun l => l.baixaOk)).map (fun l => pasta ++ "/" ++ l.nome)
  let tiposBaixados :=
    (arquivos.filter (fun l => l.baixaOk)).foldl (fun acc l => dedupAdiciona acc l.tipo) []
  let erros := (arquivos.filter (fun l => !l.baixaOk)).map (fun l => l.nome ++ ": erro")
  if baixados ≠ [] then
    let prefixo :=
      if "NF" ∈ tiposBaixados ∧ "BOLETO" ∈ tiposBaixados then "NFBOL"
      else if "NF" ∈ tiposBaixados then "NF"
      else "BOL"
    { sucesso := true
      zipCaminho :=
        some (pasta ++ "/" ++ (prefixo ++ "_" ++ identificador ++ "_" ++ dataFmt ++ ".zip"))
      removidos := baixados
      qtdOk := baixados.length
      qtdErro := erros.length
      erros := erros }
  else
    { sucesso := false, zipCaminho := none, removidos := [], qtdOk := 0
      qtdErro := erros.length, erros := erros }

theorem mem_dedupAdiciona (acc : List String) (y x : String) :
    x ∈ dedupAdiciona acc y ↔ x ∈ acc ∨ x = y := by
  unfold dedupAdiciona
  by_cases hy : y ∈ acc
  · rw [if_pos hy]
    constructor
    · exact Or.inl
    · rintro (hx | rfl)
      · exact hx
      · exact hy
  · rw [if_neg hy]
    simp

theorem mem_foldl_dedup_tipo (ls : List Linha) :
    ∀ (acc : List String) (x : String),
      x ∈ ls.foldl (fun acc l => dedupAdiciona acc l.tipo) acc ↔
        x ∈ acc ∨ x ∈ ls.map (fun l => l.tipo) := by
  induction ls with
  | nil => simp
  | cons l ls' ih =>
    intro acc x
    rw [List.foldl_cons, ih]
    rw [mem_dedupAdiciona]
    simp
    tauto

/-- C6 — For every batch download request, if at least one item succeeds
a single archive is produced named type prefix (`NFBOL` when both types
occur among the successful downloads, else the single present type's
prefix) + identifier segment (distinct numbers of all marked rows, sorted
numerically, hyphen-joined when at most three, collapsed to a first-last
range when more) + the current date, and exactly the individually
downloaded files are removed after archiving; with zero successes no
archive is produced and the aggregate result is failure. -/
theorem baixarMultiplos_spec (pasta dataFmt : String) (selecao : List Linha) :
    (((selecao.filter (fun l => l.tipo != sepLinha)).filter (fun l => l.baixaOk) ≠ []) →
      ((baixarMultiplos pasta dataFmt selecao).sucesso = true ∧
        (baixarMultiplos pasta dataFmt selecao).zipCaminho =
          some (pasta ++ "/" ++
            (prefixoEsperado
                (((selecao.filter (fun l => l.tipo != sepLinha)).filter
                    (fun l => l.baixaOk)).map (fun l => l.tipo)) ++ "_" ++
              identificadorEsperado
                (numerosMarcados (selecao.filter (fun l => l.tipo != sepLinha))) ++
              "_" ++ dataFmt ++ ".zip")) ∧
        (baixarMultiplos pasta dataFmt selecao).removidos =
          ((selecao.filter (fun l => l.tipo != sepLinha)).filter (fun l => l.baixaOk)).map
            (fun l => pasta ++ "/" ++ l.nome) ∧
        (baixarMultiplos pasta dataFmt selecao).qtdOk =
          ((selecao.filter (fun l => l.tipo != sepLinha)).filter (fun l => l.baixaOk)).length)) ∧
    (((selecao.filter (fun l => l.tipo != sepLinha)).filter (fun l => l.baixaOk) = []) →
      ((baixarMultiplos pasta dataFmt selecao).sucesso = false ∧
        (baixarMultiplos pasta dataFmt selecao).zipCaminho = none ∧
        (baixarMultiplos pasta dataFmt selecao).removidos = [])) := by
  have hNF : ("NF" ∈ ((selecao.filter (fun l => l.tipo != sepLinha)).filter
        (fun l => l.baixaOk)).foldl (fun acc l => dedupAdiciona acc l.tipo) []) ↔
      "NF" ∈ ((selecao.filter (fun l => l.tipo != sepLinha)).filter
        (fun l => l.baixaOk)).map (fun l => l.tipo) := by
    rw [mem_foldl_dedup_tipo]
    simp
  have hBOL : ("BOLETO" ∈ ((selecao.filter (fun l => l.tipo != sepLinha)).filter
        (fun l => l.baixaOk)).foldl (fun acc l => dedupAdiciona acc l.tipo) []) ↔
      "BOLETO" ∈ ((selecao.filter (fun l => l.tipo != sepLinha)).filter
        (fun l => l.baixaOk)).map (fun l => l.tipo) := by
    rw [mem_foldl_dedup_tipo]
    simp
  have hprefixo :
      (if "NF" ∈ ((selecao.filter (fun l => l.tipo != sepLinha)).filter
            (fun l => l.baixaOk)).foldl (fun acc l => dedupAdiciona acc l.tipo) [] ∧
          "BOLETO" ∈ ((selecao.filter (fun l => l.tipo != sepLinha)).filter
            (fun l => l.baixaOk)).foldl (fun acc l => dedupAdiciona acc l.tipo) [] then "NFBOL"
       else if "NF" ∈ ((selecao.filter (fun l => l.tipo != sepLinha)).filter
            (fun l => l.baixaOk)).foldl (fun acc l => dedupAdiciona acc l.tipo) [] then "NF"
       else "BOL") =
      prefixoEsperado (((selecao.filter (fun l => l.tipo != sepLinha)).filter
        (fun l => l.baixaOk)).map (fun l => l.tipo)) := by
    unfold prefixoEsperado
    rw [if_congr (Iff.and hNF hBOL) rfl (if_congr hNF rfl rfl)]
  constructor
  · intro hne
    have hbne : (((selecao.filter (fun l => l.tipo != sepLinha)).filter
        (fun l => l.baixaOk)).map (fun l => pasta ++ "/" ++ l.nome)) ≠ [] := by
      simpa using hne
    simp only [baixarMultiplos, numerosMarcados]
    rw [if_pos hbne]
    refine ⟨rfl, ?_, rfl, by simp⟩
    rw [hprefixo]
    rfl
  · intro hnil
    have hbnil : (((selecao.filter (fun l => l.tipo != sepLinha)).filter
        (fun l => l.baixaOk)).map (fun l => pasta ++ "/" ++ l.nome)) = [] := by
      rw [hnil]
      rfl
    simp only [baixarMultiplos, numerosMarcados]
    rw [if_neg (fun hc => hc hbnil)]
    exact ⟨rfl, rfl, rfl⟩

/-- Witness for C6 at the spec's example batch: successful downloads with
identifiers 123 and 456, one invoice and one tax document, produce the
archive `NFBOL_123-456_<date>.zip` and remove both downloaded files. -/
theorem baixarMultiplos_spec_witness :
    (baixarMultiplos "downloads" "05-10-2026"
        [⟨"BOLETO", "123", "a.pdf", "/b/a.pdf", true⟩,
         ⟨"NF", "456", "b.pdf", "/nf/b.pdf", true⟩]).zipCaminho =
      some "downloads/NFBOL_123-456_05-10-2026.zip" ∧
    (baixarMultiplos "downloads" "05-10-2026"
        [⟨"BOLETO", "123", "a.pdf", "/b/a.pdf", true⟩,
         ⟨"NF", "456", "b.pdf", "/nf/b.pdf", true⟩]).removidos =
      ["downloads/a.pdf", "downloads/b.pdf"] := by
  have h := (baixarMultiplos_spec "downloads" "05-10-2026"
      [⟨"BOLETO", "123", "a.pdf", "/b/a.pdf", true⟩,
       ⟨"NF", "456", "b.pdf", "/nf/b.pdf", true⟩]).1 (by decide)
  refine ⟨h.2.1.trans ?_, h.2.2.1.trans (by decide)⟩
  decide

theorem dtLe_total (a b : DataHora) : dtLe a b ∨ dtLe b a := by
  obtain ⟨a1, a2, a3, a4, a5⟩ := a
  obtain ⟨b1, b2, b3, b4, b5⟩ := b
  unfold dtLe
  dsimp only
  omega

theorem dtLe_trans (a b c : DataHora) (h1 : dtLe a b) (h2 : dtLe b c) : dtLe a c := by
  obtain ⟨a1, a2, a3, a4, a5⟩ := a
  obtain ⟨b1, b2, b3, b4, b5⟩ := b
  obtain ⟨c1, c2, c3, c4, c5⟩ := c
  unfold dtLe at h1 h2 ⊢
  dsimp only at h1 h2 ⊢
  omega

/-- One remote file as `listar_arquivos_com_data` yields it: full path,
file name and modification time. -/
structure Arquivo where
  caminho : String
  nome : String
  dataMod : DataHora
deriving DecidableEq

instance : Inhabited Arquivo := ⟨⟨"", "", default⟩⟩

/-- Tagging a walked file with its document type, producing the result
tuples of `buscar_por_data`. -/
def paraHit (a : Arquivo) (tipo : String) : Hit :=
  ⟨a.caminho, a.nome, a.dataMod, tipo⟩

/-- Descending modification-time order used by
`resultados.sort(key=lambda x: x[2], reverse=True)`. -/
def dataDesc (a b : Hit) : Prop := dtLe b.dataMod a.dataMod

instance : DecidableRel dataDesc := fun a b =>
  inferInstanceAs (Decidable (dtLe b.dataMod a.dataMod))

instance : IsTotal Hit dataDesc where
  total a b := (dtLe_total a.dataMod b.dataMod).symm

instance : IsTrans Hit dataDesc where
  trans a b c h1 h2 := dtLe_trans c.dataMod b.dataMod a.dataMod h2 h1

/-- The date-range search `buscar_por_data` of `ftp_client.py` (lines
495-532): empty when the connection cannot be ensured; otherwise the end
date has its time replaced by 23:59:59 and the start date by 00:00:00,
the walked invoice files and — when the tax-document directory is
configured — the walked tax files are kept when their modification time
lies in the closed interval, and the hits are sorted by modification time,
most recent first (Python's stable `sort` with `reverse=True`, modelled by
a stable insertion sort on the reversed order). The walked directory
listings stand in for the SFTP traversal. -/
def buscarPorData (conectado nfsConfigurado : Bool) (boletos nfs : List Arquivo)
    (dataIni dataFim : DataHora) : List Hit :=
  if conectado then
    let dataFimAjustada := { dataFim with hora := 23, minuto := 59, segundo := 59 }
    let dataIniAjustada := { dataIni with hora := 0, minuto := 0, segundo := 0 }
    let resultados :=
      (boletos.filter (fun a =>
          decide (dtLe dataIniAjustada a.dataMod ∧ dtLe a.dataMod dataFimAjustada))).map
        (fun a => paraHit a "BOLETO") ++
      (if nfsConfigurado then
        (nfs.filter (fun a =>
            decide (dtLe dataIniAjustada a.dataMod ∧ dtLe a.dataMod dataFimAjustada))).map
          (fun a => paraHit a "NF")
      else [])
    List.insertionSort dataDesc resultados
  else []

theorem filter_map_paraHit (tipo : String) (l : List Arquivo) (p : DataHora → Bool) :
    (l.filter (fun a => p a.dataMod)).map (fun a => paraHit a tipo) =
      (l.map (fun a => paraHit a tipo)).filter (fun h => p h.dataMod) := by
  induction l with
  | nil => rfl
  | cons a l' ih =>
    rw [List.filter_cons, List.map_cons, List.filter_cons]
    by_cases hp : p a.dataMod
    · rw [if_pos hp, if_pos (show p (paraHit a tipo).dataMod = true from hp), List.map_cons, ih]
    · rw [if_neg hp, if_neg (show ¬ p (paraHit a tipo).dataMod = true from hp), ih]

/-- C10 — The date-range search returns exactly the walked entries whose
modification time lies between the start date adjusted to 00:00:00 and
the end date adjusted to 23:59:59, both bounds inclusive, and the result
is sorted by modification time in descending order. -/
theorem buscarPorData_spec (conectado nfsConfigurado : Bool) (boletos nfs : List Arquivo)
    (dataIni dataFim : DataHora) (hconn : conectado = true) :
    buscarPorData conectado nfsConfigurado boletos nfs dataIni dataFim ~
      ((boletos.map (fun a => paraHit a "BOLETO") ++
        (if nfsConfigurado then nfs.map (fun a => paraHit a "NF") else [])).filter
        (fun h => decide (dtLe { dataIni with hora := 0, minuto := 0, segundo := 0 } h.dataMod ∧
          dtLe h.dataMod { dataFim with hora := 23, minuto := 59, segundo := 59 }))) ∧
    (buscarPorData conectado nfsConfigurado boletos nfs dataIni dataFim).Sorted dataDesc := by
  subst hconn
  have hbody : buscarPorData true nfsConfigurado boletos nfs dataIni dataFim =
      List.insertionSort dataDesc
        ((boletos.map (fun a => paraHit a "BOLETO") ++
          (if nfsConfigurado then nfs.map (fun a => paraHit a "NF") else [])).filter
          (fun h => decide (dtLe { dataIni with hora := 0, minuto := 0, segundo := 0 } h.dataMod ∧
            dtLe h.dataMod { dataFim with hora := 23, minuto := 59, segundo := 59 }))) := by
    simp only [buscarPorData]
    rw [if_pos trivial, List.filter_append,
      filter_map_paraHit "BOLETO" boletos
        (fun d => decide (dtLe { dataIni with hora := 0, minuto := 0, segundo := 0 } d ∧
          dtLe d { dataFim with hora := 23, minuto := 59, segundo := 59 })),
      filter_map_paraHit "NF" nfs
        (fun d => decide (dtLe { dataIni with hora := 0, minuto := 0, segundo := 0 } d ∧
          dtLe d { dataFim with hora := 23, minuto := 59, segundo := 59 }))]
    cases nfsConfigurado with
    | true => rfl
    | false => simp
  rw [hbody]
  exact ⟨List.perm_insertionSort dataDesc _, List.sorted_insertionSort dataDesc _⟩

/-- Witness for C10: a two-file walk with the more recent file listed
first in the output and both files inside the window. -/
theorem buscarPorData_spec_witness :
    buscarPorData true false
        [⟨"/b/x.pdf", "x.pdf", ⟨2, 9, 30, 0, 0⟩⟩, ⟨"/b/y.pdf", "y.pdf", ⟨5, 9, 30, 0, 0⟩⟩] []
        ⟨1, 12, 0, 0, 0⟩ ⟨9, 12, 0, 0, 0⟩ ~
      (([⟨"/b/x.pdf", "x.pdf", ⟨2, 9, 30, 0, 0⟩⟩,
         ⟨"/b/y.pdf", "y.pdf", ⟨5, 9, 30, 0, 0⟩⟩].map (fun a => paraHit a "BOLETO") ++
        (if false then ([] : List Arquivo).map (fun a => paraHit a "NF") else [])).filter
        (fun h => decide (dtLe { dia := 1, hora := 0, minuto := 0, segundo := 0, micro := 0 } h.dataMod ∧
          dtLe h.dataMod { dia := 9, hora := 23, minuto := 59, segundo := 59, micro := 0 }))) ∧
    (buscarPorData true false
        [⟨"/b/x.pdf", "x.pdf", ⟨2, 9, 30, 0, 0⟩⟩, ⟨"/b/y.pdf", "y.pdf", ⟨5, 9, 30, 0, 0⟩⟩] []
        ⟨1, 12, 0, 0, 0⟩ ⟨9, 12, 0, 0, 0⟩).Sorted dataDesc :=
  buscarPorData_spec true false
    [⟨"/b/x.pdf", "x.pdf", ⟨2, 9, 30, 0, 0⟩⟩, ⟨"/b/y.pdf", "y.pdf", ⟨5, 9, 30, 0, 0⟩⟩] []
    ⟨1, 12, 0, 0, 0⟩ ⟨9, 12, 0, 0, 0⟩ rfl

/-- UTF-8 encoding of one scalar value, the byte string Python's
`str.encode('utf-8')` produces for it. -/
def utf8EncodeChar (c : Char) : List Nat :=
  let n := c.toNat
  if n < 128 then [n]
  else if n < 2048 then [192 + n / 64, 128 + n % 64]
  else if n < 65536 then [224 + n / 4096, 128 + n / 64 % 64, 128 + n % 64]
  else [240 + n / 262144, 128 + n / 4096 % 64, 128 + n / 64 % 64, 128 + n % 64]

/-- UTF-8 encoding of a text, byte values below 256. -/
def utf8Encode (texto : String) : List Nat :=
  texto.data.foldr (fun c acc => utf8EncodeChar c ++ acc) []

/-- Decoding of one UTF-8 sequence from the front of a byte string:
leading byte classified by range, continuation bytes checked for the
`0x80..0xBF` range, any other shape a failure. Together with
`utf8DecodeAux` this models Python's `bytes.decode('utf-8')` on the byte
strings the pipeline handles. -/
def utf8DecodeUm : List Nat → Option (Char × List Nat)
  | [] => none
  | b0 :: resto =>
    if b0 < 128 then some (Char.ofNat b0, resto)
    else if b0 < 192 then none
    else if b0 < 224 then
      match resto with
      | b1 :: resto2 =>
        if 128 ≤ b1 ∧ b1 < 192 then some (Char.ofNat ((b0 - 192) * 64 + (b1 - 128)), resto2)
        else none
      | [] => none
    else if b0 < 240 then
      match resto with
      | b1 :: b2 :: resto3 =>
        if (128 ≤ b1 ∧ b1 < 192) ∧ (128 ≤ b2 ∧ b2 < 192) then
          some (Char.ofNat ((b0 - 224) * 4096 + (b1 - 128) * 64 + (b2 - 128)), resto3)
        else none
      | _ => none
    else if b0 < 248 then
      match resto with
      | b1 :: b2 :: b3 :: resto4 =>
        if (128 ≤ b1 ∧ b1 < 192) ∧ (128 ≤ b2 ∧ b2 < 192) ∧ (128 ≤ b3 ∧ b3 < 192) then
          some (Char.ofNat ((b0 - 240) * 262144 + (b1 - 128) * 4096 + (b2 - 128) * 64 +
            (b3 - 128)), resto4)
        else none
      | _ => none
    else none

set_option maxRecDepth 4000 in
theorem utf8DecodeUm_length (bs : List Nat) (c : Char) (resto : List Nat)
    (h : utf8DecodeUm bs = some (c, resto)) : resto.length < bs.length := by
  cases bs with
  | nil =>
    rw [show utf8DecodeUm [] = none from rfl] at h
    exact Option.noConfusion h
  | cons b0 resto0 =>
    dsimp only [utf8DecodeUm] at h
    repeat' split at h
    all_goals cases h
    all_goals simp only [List.length_cons]
    all_goals omega

def utf8DecodeAux : List Nat → Option (List Char)
  | [] => some []
  | b0 :: resto0 =>
    match hum : utf8DecodeUm (b0 :: resto0) with
    | some (c, resto) => (utf8DecodeAux resto).map (fun cs => c :: cs)
    | none => none
termination_by bs => bs.length
decreasing_by
  exact utf8DecodeUm_length _ _ _ hum

theorem utf8EncodeChar_ne_nil (c : Char) : utf8EncodeChar c ≠ [] := by
  unfold utf8EncodeChar
  dsimp only
  repeat' split
  all_goals simp

theorem utf8DecodeUm_encodeChar (c : Char) (resto : List Nat) :
    utf8DecodeUm (utf8EncodeChar c ++ resto) = some (c, resto) := by
  have hval : c.toNat < 55296 ∨ (57344 ≤ c.toNat ∧ c.toNat < 1114112) := c.valid
  by_cases h1 : c.toNat < 128
  · have he : utf8EncodeChar c = [c.toNat] := by
      unfold utf8EncodeChar
      rw [if_pos h1]
    rw [he, List.singleton_append]
    dsimp only [utf8DecodeUm]
    rw [if_pos h1, Char.ofNat_toNat]
  · by_cases h2 : c.toNat < 2048
    · have he : utf8EncodeChar c = [192 + c.toNat / 64, 128 + c.toNat % 64] := by
        unfold utf8EncodeChar
        rw [if_neg h1, if_pos h2]
      rw [he, List.cons_append, List.singleton_append]
      dsimp only [utf8DecodeUm]
      rw [if_neg (by omega), if_neg (by omega), if_pos (by omega), if_pos (by omega)]
      have harg : (192 + c.toNat / 64 - 192) * 64 + (128 + c.toNat % 64 - 128) = c.toNat := by
        omega
      rw [harg, Char.ofNat_toNat]
    · by_cases h3 : c.toNat < 65536
      · have he : utf8EncodeChar c =
            [224 + c.toNat / 4096, 128 + c.toNat / 64 % 64, 128 + c.toNat % 64] := by
          unfold utf8EncodeChar
          rw [if_neg h1, if_neg h2, if_pos h3]
        rw [he, List.cons_append, List.cons_append, List.singleton_append]
        dsimp only [utf8DecodeUm]
        rw [if_neg (by omega), if_neg (by omega), if_neg (by omega), if_pos (by omega),
          if_pos (by omega)]
        have harg : (224 + c.toNat / 4096 - 224) * 4096 + (128 + c.toNat / 64 % 64 - 128) * 64 +
            (128 + c.toNat % 64 - 128) = c.toNat := by
          omega
        rw [harg, Char.ofNat_toNat]
      · have h4 : c.toNat < 1114112 := by omega
        have he : utf8EncodeChar c =
            [240 + c.toNat / 262144, 128 + c.toNat / 4096 % 64, 128 + c.toNat / 64 % 64,
              128 + c.toNat % 64] := by
          unfold utf8EncodeChar
          rw [if_neg h1, if_neg h2, if_neg h3]
        rw [he, List.cons_append, List.cons_append, List.cons_append, List.singleton_append]
        dsimp only [utf8DecodeUm]
        rw [if_neg (by omega), if_neg (by omega), if_neg (by omega), if_neg (by omega),
          if_pos (by omega), if_pos (by omega)]
        have harg : (240 + c.toNat / 262144 - 240) * 262144 +
            (128 + c.toNat / 4096 % 64 - 128) * 4096 + (128 + c.toNat / 64 % 64 - 128) * 64 +
            (128 + c.toNat % 64 - 128) = c.toNat := by
          omega
        rw [harg, Char.ofNat_toNat]

theorem utf8DecodeAux_encodeChar (c : Char) (resto : List Nat) :
    utf8DecodeAux (utf8EncodeChar c ++ resto) = (utf8DecodeAux resto).map (fun cs => c :: cs) := by
  obtain ⟨b0, resto0, hE⟩ : ∃ b0 resto0, utf8EncodeChar c = b0 :: resto0 := by
    cases hEC : utf8EncodeChar c with
    | nil => exact absurd hEC (utf8EncodeChar_ne_nil c)
    | cons x xs => exact ⟨x, xs, rfl⟩
  have hstep : utf8DecodeUm (b0 :: (resto0 ++ resto)) = some (c, resto) := by
    rw [← List.cons_append, ← hE]
    exact utf8DecodeUm_encodeChar c resto
  rw [hE, List.cons_append]
  simp only [utf8DecodeAux]
  split
  · rename_i c' resto' h1
    rw [hstep] at h1
    cases h1
    rfl
  · rename_i h1
    rw [hstep] at h1
    exact Option.noConfusion h1

theorem utf8DecodeAux_utf8Encode (texto : String) :
    utf8DecodeAux (utf8Encode texto) = some texto.data := by
  unfold utf8Encode
  induction texto.data with
  | nil =>
    rw [List.foldr_nil]
    simp only [utf8DecodeAux]
  | cons c cs ih =>
    rw [List.foldr_cons, utf8DecodeAux_encodeChar, ih]
    rfl


/-- The standard Base64 alphabet, the table behind Python's
`base64.b64encode` / `b64decode`. -/
def b64Tabela : List Char :=
  ['A','B','C','D','E','F','G','H','I','J','K','L','M',
   'N','O','P','Q','R','S','T','U','V','W','X','Y','Z',
   'a','b','c','d','e','f','g','h','i','j','k','l','m',
   'n','o','p','q','r','s','t','u','v','w','x','y','z',
   '0','1','2','3','4','5','6','7','8','9','+','/']

/-- Character for a 6-bit group. -/
def b64Char (n : Nat) : Char := b64Tabela.getD n '='

/-- Value of a Base64 alphabet character, `none` for anything else
(including the padding character). -/
def b64Val (c : Char) : Option Nat := b64Tabela.findIdx? (fun c' => c' == c)

theorem b64Val_b64Char_fin : ∀ v : Fin 64, b64Val (b64Char v.val) = some v.val := by decide

theorem b64Char_ne_pad_fin : ∀ v : Fin 64, b64Char v.val ≠ '=' := by decide

theorem b64Val_b64Char (v : Nat) (h : v < 64) : b64Val (b64Char v) = some v :=
  b64Val_b64Char_fin ⟨v, h⟩

theorem b64Char_ne_pad (v : Nat) (h : v < 64) : b64Char v ≠ '=' :=
  b64Char_ne_pad_fin ⟨v, h⟩

/-- Base64 encoding of a byte string, the model of
`base64.b64encode`: 3-byte groups to 4 characters, the final 1- or
2-byte remainder padded with `'='`. -/
def b64EncodeBytes : List Nat → List Char
  | [] => []
  | [b1] => [b64Char (b1 / 4), b64Char (b1 % 4 * 16), '=', '=']
  | [b1, b2] => [b64Char (b1 / 4), b64Char (b1 % 4 * 16 + b2 / 16), b64Char (b2 % 16 * 4), '=']
  | b1 :: b2 :: b3 :: resto =>
    b64Char ((b1 * 65536 + b2 * 256 + b3) / 262144) ::
    b64Char ((b1 * 65536 + b2 * 256 + b3) / 4096 % 64) ::
    b64Char ((b1 * 65536 + b2 * 256 + b3) / 64 % 64) ::
    b64Char ((b1 * 65536 + b2 * 256 + b3) % 64) :: b64EncodeBytes resto

/-- Base64 decoding, the model of `base64.b64decode` on well-formed
input: strict 4-character quartets, padding allowed only in the final
quartet, any other shape a failure. -/
def b64DecodeChars : List Char → Option (List Nat)
  | [] => some []
  | c1 :: c2 :: c3 :: c4 :: resto =>
    (b64Val c1).bind (fun v1 =>
      (b64Val c2).bind (fun v2 =>
        if c3 = '=' then
          (if c4 = '=' ∧ resto = [] then some [v1 * 4 + v2 / 16] else none)
        else
          (b64Val c3).bind (fun v3 =>
            if c4 = '=' then
              (if resto = [] then some [v1 * 4 + v2 / 16, v2 % 16 * 16 + v3 / 4] else none)
            else
              (b64Val c4).bind (fun v4 =>
                (b64DecodeChars resto).map (fun cauda =>
                  (v1 * 4 + v2 / 16) :: (v2 % 16 * 16 + v3 / 4) :: (v3 % 4 * 64 + v4) :: cauda)))))
  | _ => none

theorem b64_roundtrip (bs : List Nat) (hb : ∀ b ∈ bs, b < 256) :
    b64DecodeChars (b64EncodeBytes bs) = some bs := by
  induction bs using b64EncodeBytes.induct with
  | case1 =>
    rfl
  | case2 b1 =>
    have hb1 : b1 < 256 := hb b1 (by simp)
    rw [show b64EncodeBytes [b1] =
        [b64Char (b1 / 4), b64Char (b1 % 4 * 16), '=', '='] from rfl]
    simp only [b64DecodeChars]
    rw [b64Val_b64Char (b1 / 4) (by omega), b64Val_b64Char (b1 % 4 * 16) (by omega)]
    simp only [Option.some_bind]
    simp only [and_true, if_true]
    have e1 : b1 / 4 * 4 + b1 % 4 * 16 / 16 = b1 := by omega
    rw [e1]
  | case3 b1 b2 =>
    have hb1 : b1 < 256 := hb b1 (by simp)
    have hb2 : b2 < 256 := hb b2 (by simp)
    rw [show b64EncodeBytes [b1, b2] =
        [b64Char (b1 / 4), b64Char (b1 % 4 * 16 + b2 / 16), b64Char (b2 % 16 * 4), '='] from rfl]
    simp only [b64DecodeChars]
    rw [b64Val_b64Char (b1 / 4) (by omega), b64Val_b64Char (b1 % 4 * 16 + b2 / 16) (by omega)]
    simp only [Option.some_bind]
    rw [if_neg (b64Char_ne_pad (b2 % 16 * 4) (by omega))]
    rw [b64Val_b64Char (b2 % 16 * 4) (by omega)]
    simp only [Option.some_bind]
    simp only [if_true]
    have e1 : b1 / 4 * 4 + (b1 % 4 * 16 + b2 / 16) / 16 = b1 := by omega
    have e2 : (b1 % 4 * 16 + b2 / 16) % 16 * 16 + b2 % 16 * 4 / 4 = b2 := by omega
    rw [e1, e2]
  | case4 b1 b2 b3 resto ih =>
    have hb1 : b1 < 256 := hb b1 (by simp)
    have hb2 : b2 < 256 := hb b2 (by simp)
    have hb3 : b3 < 256 := hb b3 (by simp)
    have hbresto : ∀ b ∈ resto, b < 256 := fun b hm => hb b (by simp [hm])
    rw [show b64EncodeBytes (b1 :: b2 :: b3 :: resto) =
        b64Char ((b1 * 65536 + b2 * 256 + b3) / 262144) ::
        b64Char ((b1 * 65536 + b2 * 256 + b3) / 4096 % 64) ::
        b64Char ((b1 * 65536 + b2 * 256 + b3) / 64 % 64) ::
        b64Char ((b1 * 65536 + b2 * 256 + b3) % 64) :: b64EncodeBytes resto from rfl]
    simp only [b64DecodeChars]
    rw [b64Val_b64Char ((b1 * 65536 + b2 * 256 + b3) / 262144) (by omega),
      b64Val_b64Char ((b1 * 65536 + b2 * 256 + b3) / 4096 % 64) (by omega)]
    simp only [Option.some_bind]
    rw [if_neg (b64Char_ne_pad ((b1 * 65536 + b2 * 256 + b3) / 64 % 64) (by omega))]
    rw [b64Val_b64Char ((b1 * 65536 + b2 * 256 + b3) / 64 % 64) (by omega)]
    simp only [Option.some_bind]
    rw [if_neg (b64Char_ne_pad ((b1 * 65536 + b2 * 256 + b3) % 64) (by omega))]
    rw [b64Val_b64Char ((b1 * 65536 + b2 * 256 + b3) % 64) (by omega)]
    simp only [Option.some_bind]
    rw [ih hbresto]
    simp only [Option.map_some']
    have e1 : (b1 * 65536 + b2 * 256 + b3) / 262144 * 4 +
        (b1 * 65536 + b2 * 256 + b3) / 4096 % 64 / 16 = b1 := by omega
    have e2 : (b1 * 65536 + b2 * 256 + b3) / 4096 % 64 % 16 * 16 +
        (b1 * 65536 + b2 * 256 + b3) / 64 % 64 / 4 = b2 := by omega
    have e3 : (b1 * 65536 + b2 * 256 + b3) / 64 % 64 % 4 * 64 +
        (b1 * 65536 + b2 * 256 + b3) % 64 = b3 := by omega
    rw [e1, e2, e3]

/-- The decode pipeline `_decodificar_gzip_base64` of `nfse_client.py`
(lines 346-367): Base64-decode, GZip-decompress, then UTF-8 decode; any
step's failure raises, modelled as `none`. GZip decompression is an
external library call whose behaviour the repository does not define, so
it is passed in as a function parameter. -/
def decodificarGzipBase64 (gunzip : List Nat → Option (List Nat))
    (dadosCodificados : String) : Option String :=
  (b64DecodeChars dadosCodificados.data).bind (fun dadosGzip =>
    (gunzip dadosGzip).bind (fun bruto =>
      (utf8DecodeAux bruto).map (fun cs => String.mk cs)))

/-- C8 — The decode pipeline is a left inverse of encoding: for every
text, GZip-compressing its UTF-8 bytes, Base64-encoding the result and
then running the decode pipeline (Base64-decode, GZip-decompress, UTF-8
decode) reproduces the text exactly. The GZip pair is abstract — its
output bytes and round-trip behaviour at the compressed payload are
hypotheses, matching the `gzip` library contract — while Base64 and UTF-8
are implemented concretely. -/
theorem decodificar_roundtrip (comprimir : List Nat → List Nat)
    (gunzip : List Nat → Option (List Nat)) (texto : String)
    (hinv : gunzip (comprimir (utf8Encode texto)) = some (utf8Encode texto))
    (hbytes : ∀ b ∈ comprimir (utf8Encode texto), b < 256) :
    decodificarGzipBase64 gunzip
        (String.mk (b64EncodeBytes (comprimir (utf8Encode texto)))) = some texto := by
  unfold decodificarGzipBase64
  rw [show (String.mk (b64EncodeBytes (comprimir (utf8Encode texto)))).data =
      b64EncodeBytes (comprimir (utf8Encode texto)) from rfl]
  rw [b64_roundtrip _ hbytes]
  simp only [Option.some_bind]
  rw [hinv]
  simp only [Option.some_bind]
  rw [utf8DecodeAux_utf8Encode]
  rfl

/-- Witness for C8 with the identity codec pair and the text `"abc"`. -/
theorem decodificar_roundtrip_witness :
    decodificarGzipBase64 some
        (String.mk (b64EncodeBytes ((fun bs => bs) (utf8Encode "abc")))) = some "abc" :=
  decodificar_roundtrip (fun bs => bs) some "abc" rfl (by decide)
